import Mathlib

/-!
Shallow embedding of the core pipeline of `IGParserApp.py`:
the identifier parser, the text entity extractor, the row normalizer,
the virality calculator and the ranking assembler, together with proofs
of the claims about them.

Python strings are modelled as `List Char`, Python runtime values as the
inductive `PyVal` (floats as rationals), pandas data frames as a row count
plus a column association list, and the float NaN marker as the explicit
`PyVal.nan` constructor.
-/

namespace IGParser

/-- Python runtime values, as far as the pipeline inspects them.
Floats are modelled as rationals (`rat`); the not-a-number marker is the
explicit constructor `nan`; `dt` models a datetime object by the string its
isoformat method returns. -/
inductive PyVal where
  | none
  | nan
  | bool (b : Bool)
  | int (n : Int)
  | rat (q : ℚ)
  | str (s : List Char)
  | list (l : List PyVal)
  | dt (iso : List Char)

/-- Python truthiness: `bool(v)`.  `None` is falsy; `0`, `0.0`, the empty
string and the empty list are falsy; NaN and datetime objects are truthy. -/
def truthy : PyVal → Bool
  | .none => false
  | .nan => true
  | .bool b => b
  | .int n => n != 0
  | .rat q => q != 0
  | .str s => !s.isEmpty
  | .list l => !l.isEmpty
  | .dt _ => true

/-- Python `a or b`: `a` when `a` is truthy, else `b`. -/
def pyOr (a b : PyVal) : PyVal := if truthy a then a else b

/-- Whitespace stripped by Python `str.strip()` (ASCII subset). -/
def isPySpace (c : Char) : Bool :=
  c = ' ' || c = '\t' || c = '\n' || c = '\r' || c = '\x0b' || c = '\x0c'

/-- Python `str.strip()`: drop whitespace from both ends. -/
def pyStrip (s : List Char) : List Char :=
  ((s.dropWhile isPySpace).reverse.dropWhile isPySpace).reverse

/-- Characters admitted by the handle capture group `[A-Za-z0-9_.]` of
`PROFILE_RE`, which is also the character class of the mention pattern. -/
def isHandleChar (c : Char) : Bool :=
  (('A' ≤ c && c ≤ 'Z') || ('a' ≤ c && c ≤ 'z')) || c.isDigit || c = '_' || c = '.'

/-- Drop the regex scheme prefix `(?:https?://)?` when literally present. -/
def dropScheme (t : List Char) : List Char :=
  if ("https://".toList).isPrefixOf t then t.drop 8
  else if ("http://".toList).isPrefixOf t then t.drop 7
  else t

/-- Drop the optional `(?:www\.)?` prefix when literally present. -/
def dropWww (t : List Char) : List Char :=
  if ("www.".toList).isPrefixOf t then t.drop 4 else t

/-- `PROFILE_RE.match(t)`: anchored at the start of `t`, optional scheme,
optional `www.`, the literal `instagram.com/`, then the captured non-empty
greedy run of handle characters (the trailing `/?` and any remaining text
are ignored).  Returns the captured group. -/
def matchProfile (t : List Char) : Option (List Char) :=
  let t2 := dropWww (dropScheme t)
  if ("instagram.com/".toList).isPrefixOf t2 then
    let run := (t2.drop 14).takeWhile isHandleChar
    if run.isEmpty then Option.none else some run
  else Option.none

/-- Python `str.lstrip("@")`: removes every leading `@`. -/
def lstripAt (s : List Char) : List Char := s.dropWhile (fun c => c = '@')

/-- `parse_username` from IGParserApp.py. -/
def parse_username (value : List Char) : List Char :=
  match matchProfile (pyStrip value) with
  | some h => h
  | Option.none => lstripAt (pyStrip value)

/-- Word characters of the regex `\w` (ASCII subset): letters, digits,
underscore. -/
def isWordChar (c : Char) : Bool :=
  (('A' ≤ c && c ≤ 'Z') || ('a' ≤ c && c ≤ 'z')) || c.isDigit || c = '_'

/-- Fuel-indexed scanner for `re.findall` of a pattern `mark(good+)`; the
fuel (one unit per input character) only makes the recursion structural,
it never runs out when initialized with the input length. -/
def findCapturesAux (mark : Char) (good : Char → Bool) : Nat → List Char → List (List Char)
  | 0, _ => []
  | _ + 1, [] => []
  | fuel + 1, c :: rest =>
    if c = mark && !(rest.takeWhile good).isEmpty then
      rest.takeWhile good :: findCapturesAux mark good fuel (rest.dropWhile good)
    else
      findCapturesAux mark good fuel rest

/-- `re.findall` for a pattern of the shape `mark(good+)`: scan left to
right; at each `mark` immediately followed by at least one `good` character,
capture the maximal run of `good` characters and resume after it. -/
def findCaptures (mark : Char) (good : Char → Bool) (l : List Char) : List (List Char) :=
  findCapturesAux mark good l.length l

/-- Strict lexicographic (codepoint) order on strings, as Python compares
`str` values. -/
def lexLt : List Char → List Char → Bool
  | [], [] => false
  | [], _ :: _ => true
  | _ :: _, [] => false
  | a :: as, b :: bs => if a < b then true else if a = b then lexLt as bs else false

/-- Insert into a strictly sorted list, skipping an element already present. -/
def insertDedup (x : List Char) : List (List Char) → List (List Char)
  | [] => [x]
  | y :: ys => if lexLt x y then x :: y :: ys else if x = y then y :: ys else y :: insertDedup x ys

/-- Python `sorted(set(l))` for a list of strings: the strictly ascending
enumeration of the distinct elements of `l`. -/
def sortDedup : List (List Char) → List (List Char)
  | [] => []
  | x :: xs => insertDedup x (sortDedup xs)

/-- `extract_hashtags` from IGParserApp.py, over a nullable string. -/
def extract_hashtags (text : Option (List Char)) : List (List Char) :=
  match text with
  | Option.none => []
  | some s => if s.isEmpty then [] else sortDedup (findCaptures '#' isWordChar s)

/-- `extract_mentions` from IGParserApp.py, over a nullable string. -/
def extract_mentions (text : Option (List Char)) : List (List Char) :=
  match text with
  | Option.none => []
  | some s => if s.isEmpty then [] else sortDedup (findCaptures '@' isHandleChar s)

/-- `", ".join(l)`. -/
def joinComma (l : List (List Char)) : List Char := List.intercalate (", ".toList) l

/-- The `location` sub-object, exposing optional `name` and `slug`
attributes. -/
structure LocObj where
  name : Option PyVal
  slug : Option PyVal


/-- One opaque post object, each attribute optionally present (duck typing:
`Option.none` in the outer layer means the attribute is absent and
`getattr` falls back to its default).  `caption_text` and `code` are
string-or-None valued as the source library types them; `location` is
absent, None, or a sub-object; every other attribute is an arbitrary
passthrough value. -/
structure Media where
  id : Option PyVal
  pk : Option PyVal
  code : Option (Option (List Char))
  caption_text : Option (Option (List Char))
  taken_at : Option PyVal
  media_type : Option PyVal
  product_type : Option PyVal
  like_count : Option PyVal
  comment_count : Option PyVal
  view_count : Option PyVal
  play_count : Option PyVal
  video_duration : Option PyVal
  thumbnail_width : Option PyVal
  width : Option PyVal
  thumbnail_height : Option PyVal
  height : Option PyVal
  location : Option (Option LocObj)
  is_paid_partnership : Option PyVal
  commenting_disabled_for_viewer : Option PyVal
  thumbnail_url : Option PyVal
  video_url : Option PyVal
  resources : Option PyVal

/-- The caption as nullable text (absent attribute or None caption ↦ null). -/
def captionTxt (m : Media) : Option (List Char) :=
  match m.caption_text with
  | some (some s) => some s
  | _ => Option.none

/-- The caption as a row value. -/
def captionVal (m : Media) : PyVal :=
  match m.caption_text with
  | some (some s) => .str s
  | _ => .none

/-- The `taken_at` row value: objects exposing `isoformat` serialize to the
ISO string, anything else passes through unchanged. -/
def takenAtVal (m : Media) : PyVal :=
  match m.taken_at.getD .none with
  | .dt iso => .str iso
  | v => v

/-- The `shortcode` row value. -/
def shortcodeVal (m : Media) : PyVal :=
  match m.code with
  | some (some s) => .str s
  | _ => .none

/-- The `url` row value: built only when the shortcode is truthy. -/
def urlVal (m : Media) : PyVal :=
  match m.code with
  | some (some s) =>
    if s.isEmpty then .none
    else .str ("https://www.instagram.com/p/".toList ++ s ++ "/".toList)
  | _ => .none

/-- The `location` row value: `loc.name or loc.slug` when the location
attribute is truthy, null otherwise. -/
def locationVal (m : Media) : PyVal :=
  match m.location with
  | some (some loc) => pyOr (loc.name.getD .none) (loc.slug.getD .none)
  | _ => .none

/-- The `carousel_count` row value: `len(resources)` when `resources` is
truthy and a list (so an empty list yields null), null otherwise. -/
def carouselVal (m : Media) : PyVal :=
  match m.resources with
  | some (.list l) => if l.isEmpty then .none else .int l.length
  | _ => .none

/-- `media_to_row` from IGParserApp.py: the normalized row, as the ordered
association list the Python dict literal builds (with `carousel_count`
appended last). -/
def media_to_row (m : Media) : List (String × PyVal) :=
  [ ("id", m.id.getD .none)
  , ("pk", m.pk.getD .none)
  , ("shortcode", shortcodeVal m)
  , ("url", urlVal m)
  , ("taken_at", takenAtVal m)
  , ("media_type", m.media_type.getD .none)
  , ("product_type", m.product_type.getD .none)
  , ("like_count", m.like_count.getD .none)
  , ("comment_count", m.comment_count.getD .none)
  , ("view_count", pyOr (m.view_count.getD .none) (m.play_count.getD .none))
  , ("play_count", m.play_count.getD .none)
  , ("caption", captionVal m)
  , ("hashtags", .str (joinComma (extract_hashtags (captionTxt m))))
  , ("mentions", .str (joinComma (extract_mentions (captionTxt m))))
  , ("duration_sec", m.video_duration.getD .none)
  , ("width", pyOr (m.thumbnail_width.getD .none) (m.width.getD .none))
  , ("height", pyOr (m.thumbnail_height.getD .none) (m.height.getD .none))
  , ("location", locationVal m)
  , ("is_paid_partnership", m.is_paid_partnership.getD .none)
  , ("is_comments_disabled", m.commenting_disabled_for_viewer.getD .none)
  , ("thumbnail_url", m.thumbnail_url.getD .none)
  , ("video_url", m.video_url.getD .none)
  , ("carousel_count", carouselVal m) ]

/-- The fixed key list of every normalized row. -/
def rowKeys : List String :=
  [ "id", "pk", "shortcode", "url", "taken_at", "media_type", "product_type"
  , "like_count", "comment_count", "view_count", "play_count", "caption"
  , "hashtags", "mentions", "duration_sec", "width", "height", "location"
  , "is_paid_partnership", "is_comments_disabled", "thumbnail_url"
  , "video_url", "carousel_count" ]

/-- A pandas data frame: a row count and an ordered column association
list.  Well-formedness (`DF.WF`) asks every column to have `nrows`
entries. -/
structure DF where
  nrows : Nat
  cols : List (String × List PyVal)


/-- Every column holds one value per row. -/
def DF.WF (df : DF) : Prop := ∀ p ∈ df.cols, (Prod.snd p).length = df.nrows

/-- `df.get(name)`: the column when present. -/
def DF.get (df : DF) (k : String) : Option (List PyVal) :=
  (df.cols.find? (fun p => p.1 = k)).map Prod.snd

/-- Replace a column in the association list, appending it when absent
(pandas column assignment). -/
def updateCol : List (String × List PyVal) → String → List PyVal → List (String × List PyVal)
  | [], k, v => [(k, v)]
  | p :: rest, k, v => if p.1 = k then (k, v) :: rest else p :: updateCol rest k v

/-- `df[k] = column`. -/
def DF.set (df : DF) (k : String) (v : List PyVal) : DF :=
  ⟨df.nrows, updateCol df.cols k v⟩

/-- Parse an optionally signed decimal integer string (the fragment of
`pd.to_numeric` string parsing the pipeline can meet); anything else fails
to coerce. -/
def parseDigits (s : List Char) : Option ℚ :=
  if !s.isEmpty && s.all Char.isDigit then
    some ((s.foldl (fun acc c => acc * 10 + (c.toNat - 48)) 0 : Nat) : ℚ)
  else Option.none

/-- Numeric string parsing for `pd.to_numeric`. -/
def parseNum (s : List Char) : Option ℚ :=
  match s with
  | '-' :: rest => (parseDigits rest).map (fun q => -q)
  | _ => parseDigits s

/-- `pd.to_numeric(v, errors="coerce")` on one cell: `Option.none` is the
NaN result of a failed coercion. -/
def toNumeric : PyVal → Option ℚ
  | .int n => some (n : ℚ)
  | .rat q => some q
  | .bool b => some (if b then 1 else 0)
  | .str s => parseNum s
  | _ => Option.none

/-- A counter column as coerced numbers: a missing column is the scalar NaN
broadcast over every row. -/
def coerceCol (c : Option (List PyVal)) (n : Nat) : List (Option ℚ) :=
  match c with
  | Option.none => List.replicate n Option.none
  | some col => col.map toNumeric

/-- Divide a coerced column by the follower count; NaN propagates. -/
def ratioCol (v : List (Option ℚ)) (f : Int) : List PyVal :=
  v.map (fun o => match o with
    | some q => .rat (q / (f : ℚ))
    | Option.none => .nan)

/-- Elementwise sum of two coerced columns; NaN propagates. -/
def addCols (a b : List (Option ℚ)) : List (Option ℚ) :=
  List.zipWith (fun x y => match x, y with
    | some p, some q => some (p + q)
    | _, _ => Option.none) a b

/-- The `not followers or followers <= 0` branch of `compute_virality`. -/
def viralityNanBranch (df : DF) : DF :=
  let n := df.nrows
  ((((df.set "followers_at_scrape" (List.replicate n .nan)
      ).set "views_per_follower" (List.replicate n .nan)
      ).set "likes_per_follower" (List.replicate n .nan)
      ).set "comments_per_follower" (List.replicate n .nan)
      ).set "er_per_follower" (List.replicate n .nan)

/-- The positive-follower branch of `compute_virality`. -/
def viralityPosBranch (df : DF) (f : Int) : DF :=
  let n := df.nrows
  let df1 := df.set "followers_at_scrape" (List.replicate n (.int f))
  let vc := coerceCol (df1.get "view_count") n
  let lc := coerceCol (df1.get "like_count") n
  let cc := coerceCol (df1.get "comment_count") n
  let df2 := df1.set "views_per_follower" (ratioCol vc f)
  let df3 := df2.set "likes_per_follower" (ratioCol lc f)
  let df4 := df3.set "comments_per_follower" (ratioCol cc f)
  df4.set "er_per_follower" (ratioCol (addCols lc cc) f)

/-- `compute_virality` from IGParserApp.py.  The follower count is nullable
(the caller passes `getattr(uinfo, "follower_count", None)`); `not
followers or followers <= 0` selects the NaN branch. -/
def compute_virality (df : DF) (followers : Option Int) : DF :=
  match followers with
  | Option.none => viralityNanBranch df
  | some f => if f ≤ 0 then viralityNanBranch df else viralityPosBranch df f

/-- A float cell as a sort key (`.nan` and non-numeric cells sort as NaN). -/
def asNum : PyVal → Option ℚ
  | .rat q => some q
  | .int n => some (n : ℚ)
  | _ => Option.none

/-- `a` strictly precedes `b` when sorting descending with NaN placed last
(pandas default `na_position="last"`). -/
def numLt (a b : Option ℚ) : Bool :=
  match a, b with
  | some x, some y => y < x
  | some _, Option.none => true
  | Option.none, _ => false

/-- Lexicographic strict precedence on the (primary, secondary) sort key:
descending `views_per_follower`, then descending `er_per_follower`. -/
def keyLt (a b : Option ℚ × Option ℚ) : Bool :=
  numLt a.1 b.1 || (a.1 = b.1 && numLt a.2 b.2)

/-- The sort key of row `i` for the ranking assembler: the priority list of
those of the two ranking columns that exist in the table. -/
def rankKey (df : DF) (i : Nat) : Option ℚ × Option ℚ :=
  match df.get "views_per_follower", df.get "er_per_follower" with
  | some v, some e => (asNum (v.getD i .nan), asNum (e.getD i .nan))
  | some v, Option.none => (asNum (v.getD i .nan), Option.none)
  | Option.none, some e => (asNum (e.getD i .nan), Option.none)
  | Option.none, Option.none => (Option.none, Option.none)

/-- Stable insertion: `x` goes after every element strictly preceding it
and before the first element that does not (so before every tie). -/
def insertK (key : Nat → Option ℚ × Option ℚ) (x : Nat) : List Nat → List Nat
  | [] => [x]
  | j :: js => if keyLt (key j) (key x) then j :: insertK key x js else x :: j :: js

/-- Stable insertion sort of row indices by `keyLt` on their keys. -/
def isortK (key : Nat → Option ℚ × Option ℚ) : List Nat → List Nat
  | [] => []
  | x :: xs => insertK key x (isortK key xs)

/-- The row order of the ranked view: a stable descending sort by the
ranking columns when at least one exists, the original order otherwise. -/
def rankPerm (df : DF) : List Nat :=
  if (df.get "views_per_follower").isSome || (df.get "er_per_follower").isSome then
    isortK (rankKey df) (List.range df.nrows)
  else List.range df.nrows

/-- `df.sort_values(by=sort_by, ascending=[False, ...])` as the ranking
assembler builds it: every column reordered by the rank permutation. -/
def rankDF (df : DF) : DF :=
  ⟨df.nrows, df.cols.map (fun p => (p.1, (rankPerm df).map (fun i => p.2.getD i .nan)))⟩

/-- The cell of an optional column at row `i`, with the missing column
broadcasting null (which coerces to NaN). -/
def cellOfOpt (c : Option (List PyVal)) (i : Nat) : PyVal :=
  match c with
  | some col => col.getD i .none
  | Option.none => .none

/-- The cell of a column at row `i`, with the missing column broadcasting
null (which coerces to NaN). -/
def cellOf (df : DF) (k : String) (i : Nat) : PyVal :=
  cellOfOpt (df.get k) i

/-- A cell of the mutated data frame. -/
def getCell (df : DF) (k : String) (i : Nat) : Option PyVal :=
  (df.get k).bind (fun col => col.get? i)

/-- What one ratio cell must hold: the coerced counter divided by the
follower count, NaN when coercion fails. -/
def ratioCell (v : PyVal) (f : Int) : PyVal :=
  match toNumeric v with
  | some q => .rat (q / (f : ℚ))
  | Option.none => .nan

/-- What one engagement-rate cell must hold: the sum of the coerced like
and comment counters over the follower count, NaN when either coercion
fails. -/
def erCell (a b : PyVal) (f : Int) : PyVal :=
  match toNumeric a, toNumeric b with
  | some x, some y => .rat ((x + y) / (f : ℚ))
  | _, _ => .nan

/-! ### Association-list lemmas for data-frame columns -/

theorem find?_updateCol_same (cols : List (String × List PyVal)) (k : String) (v : List PyVal) :
    (updateCol cols k v).find? (fun p => p.1 = k) = some (k, v) := by
  induction cols with
  | nil => simp [updateCol, List.find?]
  | cons p rest ih =>
    by_cases h : p.1 = k
    · simp [updateCol, h, List.find?]
    · simp only [updateCol, if_neg h, List.find?_cons, decide_eq_false h]
      exact ih

theorem find?_updateCol_ne (cols : List (String × List PyVal)) (k k' : String)
    (v : List PyVal) (h : k' ≠ k) :
    (updateCol cols k v).find? (fun p => p.1 = k') = cols.find? (fun p => p.1 = k') := by
  induction cols with
  | nil => simp [updateCol, List.find?, Ne.symm h]
  | cons p rest ih =>
    by_cases hp : p.1 = k
    · have hp' : ¬ p.1 = k' := by rw [hp]; exact Ne.symm h
      simp [updateCol, hp, List.find?, Ne.symm h, hp']
    · simp only [updateCol, if_neg hp, List.find?_cons]
      by_cases hq : p.1 = k'
      · simp only [decide_eq_true hq]
      · simp only [decide_eq_false hq]
        exact ih

theorem DF.get_set_same (df : DF) (k : String) (v : List PyVal) :
    (df.set k v).get k = some v := by
  simp [DF.get, DF.set, find?_updateCol_same]

theorem DF.get_set_ne (df : DF) (k k' : String) (v : List PyVal) (h : k' ≠ k) :
    (df.set k v).get k' = df.get k' := by
  simp [DF.get, DF.set, find?_updateCol_ne _ _ _ _ h]

theorem DF.set_nrows (df : DF) (k : String) (v : List PyVal) :
    (df.set k v).nrows = df.nrows := rfl

theorem mem_updateCol (cols : List (String × List PyVal)) (k : String)
    (v : List PyVal) (p : String × List PyVal) (hp : p ∈ updateCol cols k v) :
    p = (k, v) ∨ p ∈ cols := by
  induction cols with
  | nil => simpa [updateCol] using hp
  | cons q rest ih =>
    by_cases hq : q.1 = k
    · simp only [updateCol, if_pos hq, List.mem_cons] at hp
      rcases hp with hp | hp
      · exact Or.inl hp
      · exact Or.inr (List.mem_cons_of_mem _ hp)
    · simp only [updateCol, if_neg hq, List.mem_cons] at hp
      rcases hp with hp | hp
      · exact Or.inr (hp ▸ List.mem_cons_self _ _)
      · rcases ih hp with h | h
        · exact Or.inl h
        · exact Or.inr (List.mem_cons_of_mem _ h)

theorem DF.WF_set (df : DF) (k : String) (v : List PyVal) (h : df.WF)
    (hv : v.length = df.nrows) : (df.set k v).WF := by
  intro p hp
  rcases mem_updateCol df.cols k v p hp with rfl | hmem
  · exact hv
  · exact h p hmem

/-! ### The virality calculator on unknown or non-positive follower counts -/

theorem viralityNanBranch_spec (df : DF) :
    (viralityNanBranch df).nrows = df.nrows
    ∧ (viralityNanBranch df).get "followers_at_scrape" = some (List.replicate df.nrows .nan)
    ∧ (viralityNanBranch df).get "views_per_follower" = some (List.replicate df.nrows .nan)
    ∧ (viralityNanBranch df).get "likes_per_follower" = some (List.replicate df.nrows .nan)
    ∧ (viralityNanBranch df).get "comments_per_follower" = some (List.replicate df.nrows .nan)
    ∧ (viralityNanBranch df).get "er_per_follower" = some (List.replicate df.nrows .nan)
    ∧ (df.WF → (viralityNanBranch df).WF) := by
  unfold viralityNanBranch
  refine ⟨rfl, ?_, ?_, ?_, ?_, ?_, ?_⟩
  · rw [DF.get_set_ne _ _ _ _ (by decide), DF.get_set_ne _ _ _ _ (by decide),
      DF.get_set_ne _ _ _ _ (by decide), DF.get_set_ne _ _ _ _ (by decide),
      DF.get_set_same]
  · rw [DF.get_set_ne _ _ _ _ (by decide), DF.get_set_ne _ _ _ _ (by decide),
      DF.get_set_ne _ _ _ _ (by decide), DF.get_set_same]
  · rw [DF.get_set_ne _ _ _ _ (by decide), DF.get_set_ne _ _ _ _ (by decide),
      DF.get_set_same]
  · rw [DF.get_set_ne _ _ _ _ (by decide), DF.get_set_same]
  · rw [DF.get_set_same]
  · intro hwf
    refine DF.WF_set _ _ _ (DF.WF_set _ _ _ (DF.WF_set _ _ _ (DF.WF_set _ _ _
      (DF.WF_set _ _ _ hwf ?_) ?_) ?_) ?_) ?_ <;> simp [DF.set_nrows]

/-- C1: on a null, zero, or negative follower count, `compute_virality`
keeps the row count, writes the NaN marker into every row of the four ratio
columns and of `followers_at_scrape`, preserves well-formedness and (being
a total function) never raises. -/
theorem C1_virality_nonpositive_followers (df : DF) (fo : Option Int)
    (h : fo = Option.none ∨ ∃ f, fo = some f ∧ f ≤ 0) :
    (compute_virality df fo).nrows = df.nrows
    ∧ (compute_virality df fo).get "followers_at_scrape" = some (List.replicate df.nrows .nan)
    ∧ (compute_virality df fo).get "views_per_follower" = some (List.replicate df.nrows .nan)
    ∧ (compute_virality df fo).get "likes_per_follower" = some (List.replicate df.nrows .nan)
    ∧ (compute_virality df fo).get "comments_per_follower" = some (List.replicate df.nrows .nan)
    ∧ (compute_virality df fo).get "er_per_follower" = some (List.replicate df.nrows .nan)
    ∧ (df.WF → (compute_virality df fo).WF) := by
  have hb : compute_virality df fo = viralityNanBranch df := by
    rcases h with rfl | ⟨f, rfl, hf⟩
    · rfl
    · simp [compute_virality, hf]
  rw [hb]
  exact viralityNanBranch_spec df

/-- The spec's five-row example table for the zero-follower test. -/
def dfFive : DF :=
  ⟨5, [ ("like_count", [.int 1, .int 2, .int 3, .int 4, .int 5])
      , ("comment_count", [.int 1, .int 0, .str "x".toList, .none, .int 2])
      , ("view_count", [.int 9, .none, .int 7, .int 6, .int 5]) ]⟩

/-- C1 witness: the five-row table with followers = 0. -/
theorem C1_virality_nonpositive_followers_witness :
    (compute_virality dfFive (some 0)).nrows = dfFive.nrows
    ∧ (compute_virality dfFive (some 0)).get "followers_at_scrape" = some (List.replicate dfFive.nrows .nan)
    ∧ (compute_virality dfFive (some 0)).get "views_per_follower" = some (List.replicate dfFive.nrows .nan)
    ∧ (compute_virality dfFive (some 0)).get "likes_per_follower" = some (List.replicate dfFive.nrows .nan)
    ∧ (compute_virality dfFive (some 0)).get "comments_per_follower" = some (List.replicate dfFive.nrows .nan)
    ∧ (compute_virality dfFive (some 0)).get "er_per_follower" = some (List.replicate dfFive.nrows .nan)
    ∧ (dfFive.WF → (compute_virality dfFive (some 0)).WF) :=
  C1_virality_nonpositive_followers dfFive (some 0) (Or.inr ⟨0, rfl, by decide⟩)

/-! ### The virality calculator on positive follower counts -/

theorem DF.get_length {df : DF} (hwf : df.WF) {k : String} {col : List PyVal}
    (h : df.get k = some col) : col.length = df.nrows := by
  unfold DF.get at h
  rcases Option.map_eq_some'.mp h with ⟨p, hp, rfl⟩
  exact hwf p (List.mem_of_find?_eq_some hp)

theorem coerceCol_length {c : Option (List PyVal)} {n : Nat}
    (hc : ∀ col, c = some col → col.length = n) : (coerceCol c n).length = n := by
  cases c with
  | none => simp [coerceCol]
  | some col => simpa [coerceCol] using hc col rfl

theorem coerceCol_getElem {c : Option (List PyVal)} {n i : Nat} (hi : i < n)
    (hc : ∀ col, c = some col → col.length = n) :
    (coerceCol c n)[i]? = some (toNumeric (cellOfOpt c i)) := by
  cases c with
  | none => simp [coerceCol, cellOfOpt, List.getElem?_replicate, hi, toNumeric]
  | some col =>
    have hlen : col.length = n := hc col rfl
    have hi' : i < col.length := by omega
    simp [coerceCol, cellOfOpt, List.getElem?_eq_getElem hi',
      List.getD_eq_getElem?_getD, List.getElem?_eq_getElem hi']

theorem ratioCol_coerce_getElem {c : Option (List PyVal)} {n i : Nat} {f : Int}
    (hi : i < n) (hc : ∀ col, c = some col → col.length = n) :
    (ratioCol (coerceCol c n) f)[i]? = some (ratioCell (cellOfOpt c i) f) := by
  unfold ratioCol
  rw [List.getElem?_map, coerceCol_getElem hi hc]
  rfl

theorem ratioCol_er_getElem {cl cc : Option (List PyVal)} {n i : Nat} {f : Int}
    (hi : i < n) (hl : ∀ col, cl = some col → col.length = n)
    (hc : ∀ col, cc = some col → col.length = n) :
    (ratioCol (addCols (coerceCol cl n) (coerceCol cc n)) f)[i]? =
      some (erCell (cellOfOpt cl i) (cellOfOpt cc i) f) := by
  unfold ratioCol addCols erCell
  rw [List.getElem?_map, List.getElem?_zipWith, coerceCol_getElem hi hl,
    coerceCol_getElem hi hc]
  cases toNumeric (cellOfOpt cl i) <;> cases toNumeric (cellOfOpt cc i) <;> rfl

theorem ratioCol_length (v : List (Option ℚ)) (f : Int) :
    (ratioCol v f).length = v.length := by simp [ratioCol]

theorem addCols_length (a b : List (Option ℚ)) :
    (addCols a b).length = min a.length b.length := by simp [addCols]

/-- C2: on a positive follower count `f`, `compute_virality` keeps the row
count, writes `f` into `followers_at_scrape` in every row and, per row,
writes the coerced counters divided by `f` into the three per-counter
ratios and the coerced like + comment sum over `f` into `er_per_follower`;
a cell whose coercion fails yields the NaN marker in that row's ratio
alone, and the (total) computation never aborts. -/
theorem C2_virality_positive_followers (df : DF) (f : Int) (hwf : df.WF) (hf : 0 < f) :
    (compute_virality df (some f)).nrows = df.nrows
    ∧ (compute_virality df (some f)).get "followers_at_scrape"
        = some (List.replicate df.nrows (.int f))
    ∧ (compute_virality df (some f)).WF
    ∧ ∀ i, i < df.nrows →
        getCell (compute_virality df (some f)) "views_per_follower" i
          = some (ratioCell (cellOf df "view_count" i) f)
      ∧ getCell (compute_virality df (some f)) "likes_per_follower" i
          = some (ratioCell (cellOf df "like_count" i) f)
      ∧ getCell (compute_virality df (some f)) "comments_per_follower" i
          = some (ratioCell (cellOf df "comment_count" i) f)
      ∧ getCell (compute_virality df (some f)) "er_per_follower" i
          = some (erCell (cellOf df "like_count" i) (cellOf df "comment_count" i) f) := by
  have hred : compute_virality df (some f) = viralityPosBranch df f := by
    simp only [compute_virality]
    rw [if_neg (by omega)]
  have hvc : (df.set "followers_at_scrape" (List.replicate df.nrows (.int f))).get "view_count"
      = df.get "view_count" := DF.get_set_ne _ _ _ _ (by decide)
  have hlc : (df.set "followers_at_scrape" (List.replicate df.nrows (.int f))).get "like_count"
      = df.get "like_count" := DF.get_set_ne _ _ _ _ (by decide)
  have hcc : (df.set "followers_at_scrape" (List.replicate df.nrows (.int f))).get "comment_count"
      = df.get "comment_count" := DF.get_set_ne _ _ _ _ (by decide)
  rw [hred]
  unfold viralityPosBranch
  simp only [hvc, hlc, hcc]
  have hLvc : ∀ col, df.get "view_count" = some col → col.length = df.nrows :=
    fun col h => DF.get_length hwf h
  have hLlc : ∀ col, df.get "like_count" = some col → col.length = df.nrows :=
    fun col h => DF.get_length hwf h
  have hLcc : ∀ col, df.get "comment_count" = some col → col.length = df.nrows :=
    fun col h => DF.get_length hwf h
  refine ⟨rfl, ?_, ?_, ?_⟩
  · rw [DF.get_set_ne _ _ _ _ (by decide), DF.get_set_ne _ _ _ _ (by decide),
      DF.get_set_ne _ _ _ _ (by decide), DF.get_set_ne _ _ _ _ (by decide),
      DF.get_set_same]
  · refine DF.WF_set _ _ _ (DF.WF_set _ _ _ (DF.WF_set _ _ _ (DF.WF_set _ _ _
      (DF.WF_set _ _ _ hwf ?_) ?_) ?_) ?_) ?_
    · simp
    · simp only [DF.set_nrows, ratioCol_length]
      exact coerceCol_length hLvc
    · simp only [DF.set_nrows, ratioCol_length]
      exact coerceCol_length hLlc
    · simp only [DF.set_nrows, ratioCol_length]
      exact coerceCol_length hLcc
    · simp only [DF.set_nrows, ratioCol_length, addCols_length,
        coerceCol_length hLlc, coerceCol_length hLcc, min_self]
  · intro i hi
    refine ⟨?_, ?_, ?_, ?_⟩
    · unfold getCell
      rw [DF.get_set_ne _ _ _ _ (by decide), DF.get_set_ne _ _ _ _ (by decide),
        DF.get_set_ne _ _ _ _ (by decide), DF.get_set_same]
      simpa [cellOf] using ratioCol_coerce_getElem hi hLvc
    · unfold getCell
      rw [DF.get_set_ne _ _ _ _ (by decide), DF.get_set_ne _ _ _ _ (by decide),
        DF.get_set_same]
      simpa [cellOf] using ratioCol_coerce_getElem hi hLlc
    · unfold getCell
      rw [DF.get_set_ne _ _ _ _ (by decide), DF.get_set_same]
      simpa [cellOf] using ratioCol_coerce_getElem hi hLcc
    · unfold getCell
      rw [DF.get_set_same]
      simpa [cellOf] using ratioCol_er_getElem hi hLlc hLcc

/-- The spec's one-row example table: 10 likes and 5 comments. -/
def dfOne : DF := ⟨1, [("like_count", [.int 10]), ("comment_count", [.int 5])]⟩

theorem dfOne_wf : dfOne.WF := by
  intro p hp
  simp only [dfOne, List.mem_cons, List.not_mem_nil, or_false] at hp
  rcases hp with rfl | rfl <;> rfl

/-- C2 witness: the one-row table with followers = 100 yields
likes_per_follower = 0.10, comments_per_follower = 0.05 and
er_per_follower = 0.15, and the snapshot column holds 100. -/
theorem C2_virality_positive_followers_witness :
    (compute_virality dfOne (some 100)).get "followers_at_scrape"
      = some [PyVal.int 100]
    ∧ getCell (compute_virality dfOne (some 100)) "likes_per_follower" 0
      = some (.rat (1 / 10))
    ∧ getCell (compute_virality dfOne (some 100)) "comments_per_follower" 0
      = some (.rat (1 / 20))
    ∧ getCell (compute_virality dfOne (some 100)) "er_per_follower" 0
      = some (.rat (3 / 20)) := by
  obtain ⟨-, hfc, -, hcell⟩ := C2_virality_positive_followers dfOne 100 dfOne_wf (by decide)
  obtain ⟨-, hl, hc, he⟩ := hcell 0 (by decide)
  refine ⟨hfc.trans rfl, hl.trans ?_, hc.trans ?_, he.trans ?_⟩
  · simp [cellOf, cellOfOpt, dfOne, DF.get, List.find?, ratioCell, toNumeric]
    norm_num
  · simp [cellOf, cellOfOpt, dfOne, DF.get, List.find?, ratioCell, toNumeric]
    norm_num
  · simp [cellOf, cellOfOpt, dfOne, DF.get, List.find?, erCell, toNumeric]
    norm_num

/-! ### The row normalizer -/

/-- A post object exposing no attribute at all. -/
def blankMedia : Media :=
  ⟨Option.none, Option.none, Option.none, Option.none, Option.none, Option.none,
   Option.none, Option.none, Option.none, Option.none, Option.none, Option.none,
   Option.none, Option.none, Option.none, Option.none, Option.none, Option.none,
   Option.none, Option.none, Option.none, Option.none⟩

/-- A post object exposing only `id` and `pk`. -/
def mediaIdPk : Media := { blankMedia with id := some (.int 1), pk := some (.int 2) }

/-- C4: every row carries exactly the fixed key list of the schema, in
order, whatever attributes the post object exposes; the post exposing
only `id` and `pk` yields a row with every field present, every
non-identity field null, and empty-string hashtags and mentions. -/
theorem C4_row_keys_fixed :
    (∀ m : Media, (media_to_row m).map Prod.fst = rowKeys)
    ∧ media_to_row mediaIdPk =
      [ ("id", .int 1), ("pk", .int 2), ("shortcode", .none), ("url", .none)
      , ("taken_at", .none), ("media_type", .none), ("product_type", .none)
      , ("like_count", .none), ("comment_count", .none), ("view_count", .none)
      , ("play_count", .none), ("caption", .none), ("hashtags", .str [])
      , ("mentions", .str []), ("duration_sec", .none), ("width", .none)
      , ("height", .none), ("location", .none), ("is_paid_partnership", .none)
      , ("is_comments_disabled", .none), ("thumbnail_url", .none)
      , ("video_url", .none), ("carousel_count", .none) ] :=
  ⟨fun _ => rfl, rfl⟩

/-- A post whose direct view counter is present but zero, with a play
counter of 7. -/
def mediaView0 : Media :=
  { blankMedia with view_count := some (.int 0), play_count := some (.int 7) }

/-- C6 counterexample: with `view_count = 0` and `play_count = 7` the row
holds 7, not the direct value 0 — the code falls back on any falsy direct
counter, not only on an absent one. -/
theorem C6_counterexample :
    List.lookup "view_count" (media_to_row mediaView0) = some (.int 7)
    ∧ PyVal.int 7 ≠ PyVal.int 0 :=
  ⟨rfl, fun h => by simp at h⟩

/-- C6 (amended): the row's `view_count` equals the direct view-count
attribute whenever that attribute is present and truthy, and falls back to
the play-count attribute when the direct counter is absent or falsy
(None, 0). -/
theorem C6_view_count_fallback (m : Media) :
    (∀ v, m.view_count = some v → truthy v = true →
      List.lookup "view_count" (media_to_row m) = some v)
    ∧ (∀ v, m.view_count = some v → truthy v = false →
      List.lookup "view_count" (media_to_row m) = some (m.play_count.getD .none))
    ∧ (m.view_count = Option.none →
      List.lookup "view_count" (media_to_row m) = some (m.play_count.getD .none)) := by
  have hl : List.lookup "view_count" (media_to_row m)
      = some (pyOr (m.view_count.getD .none) (m.play_count.getD .none)) := rfl
  refine ⟨fun v hv ht => ?_, fun v hv ht => ?_, fun hv => ?_⟩
  · rw [hl, hv]
    simp [pyOr, ht]
  · rw [hl, hv]
    simp [pyOr, ht]
  · rw [hl, hv]
    simp [pyOr, truthy]

/-- C6 witness: the zero-view post falls back to its play counter. -/
theorem C6_view_count_fallback_witness :
    List.lookup "view_count" (media_to_row mediaView0)
      = some (mediaView0.play_count.getD .none) :=
  (C6_view_count_fallback mediaView0).2.1 (.int 0) rfl (by decide)

/-- A post whose resources attribute is the empty list. -/
def mediaResEmpty : Media := { blankMedia with resources := some (.list []) }

/-- C7 counterexample: an empty resources list yields a null
`carousel_count`, not 0 — the truthiness test rejects the empty list
before the shape test. -/
theorem C7_counterexample :
    List.lookup "carousel_count" (media_to_row mediaResEmpty) = some PyVal.none
    ∧ PyVal.none ≠ PyVal.int 0 :=
  ⟨rfl, fun h => PyVal.noConfusion h⟩

/-- C7 (amended): `carousel_count` is the length of the resources list when
that attribute is a non-empty list, and null when the attribute is absent,
not list-shaped, or an empty list. -/
theorem C7_carousel_count (m : Media) :
    (∀ l, m.resources = some (.list l) → l ≠ [] →
      List.lookup "carousel_count" (media_to_row m) = some (.int l.length))
    ∧ (m.resources = some (.list []) →
      List.lookup "carousel_count" (media_to_row m) = some PyVal.none)
    ∧ (m.resources = Option.none →
      List.lookup "carousel_count" (media_to_row m) = some PyVal.none)
    ∧ (∀ v, m.resources = some v → (∀ l, v ≠ .list l) →
      List.lookup "carousel_count" (media_to_row m) = some PyVal.none) := by
  have hl : List.lookup "carousel_count" (media_to_row m) = some (carouselVal m) := rfl
  refine ⟨fun l hres hne => ?_, fun hres => ?_, fun hres => ?_, fun v hres hshape => ?_⟩
  · rw [hl]
    unfold carouselVal
    rw [hres]
    simp [List.isEmpty_iff, hne]
  · rw [hl]
    unfold carouselVal
    rw [hres]
    rfl
  · rw [hl]
    unfold carouselVal
    rw [hres]
  · rw [hl]
    unfold carouselVal
    rw [hres]
    cases v with
    | list l => exact absurd rfl (hshape l)
    | none => rfl
    | nan => rfl
    | bool b => rfl
    | int n => rfl
    | rat q => rfl
    | str s => rfl
    | dt iso => rfl

/-- A post carrying a three-element resources list. -/
def mediaRes3 : Media :=
  { blankMedia with resources := some (.list [.str "a".toList, .none, .int 5]) }

/-- C7 witness: a three-element resources list yields `carousel_count = 3`,
and the empty list yields null. -/
theorem C7_carousel_count_witness :
    List.lookup "carousel_count" (media_to_row mediaRes3) = some (.int 3)
    ∧ List.lookup "carousel_count" (media_to_row mediaResEmpty) = some PyVal.none :=
  ⟨(C7_carousel_count mediaRes3).1 [.str "a".toList, .none, .int 5] rfl
      (List.cons_ne_nil _ _),
   (C7_carousel_count mediaResEmpty).2.1 rfl⟩

/-! ### The identifier parser -/

/-- The optional scheme prefixes `(?:https?://)?` can contribute. -/
def schemeOpts : List (List Char) := [[], "http://".toList, "https://".toList]

/-- The optional `(?:www\\.)?` prefixes. -/
def wwwOpts : List (List Char) := [[], "www.".toList]

/-- The spec-side reading of the URL pattern: the (whitespace-stripped)
input starts with an optional scheme, optional `www.`, the literal
`instagram.com/` and the maximal non-empty run `run` of handle characters;
everything after that run is ignored. -/
def ProfilePattern (t run : List Char) : Prop :=
  ∃ pre www rest,
    pre ∈ schemeOpts ∧ www ∈ wwwOpts ∧
    run ≠ [] ∧ (∀ c ∈ run, isHandleChar c = true) ∧
    (∀ c ∈ rest.take 1, isHandleChar c = false) ∧
    t = pre ++ www ++ "instagram.com/".toList ++ run ++ rest

theorem takeWhile_run_append {good : Char → Bool} {run rest : List Char}
    (hrun : ∀ c ∈ run, good c = true)
    (hrest : ∀ c ∈ rest.take 1, good c = false) :
    (run ++ rest).takeWhile good = run ∧ (run ++ rest).dropWhile good = rest := by
  induction run with
  | nil =>
    cases rest with
    | nil => exact ⟨rfl, rfl⟩
    | cons c r =>
      have hc : good c = false := hrest c (by simp)
      simp [List.takeWhile, List.dropWhile, hc]
  | cons a run ih =>
    have ha : good a = true := hrun a (List.mem_cons_self _ _)
    have ih' := ih (fun c hc => hrun c (List.mem_cons_of_mem _ hc))
    simp [List.takeWhile, List.dropWhile, ha, ih'.1, ih'.2]

theorem matchProfile_shape {pre www : List Char} (hpre : pre ∈ schemeOpts)
    (hwww : www ∈ wwwOpts) (z : List Char) :
    matchProfile (pre ++ www ++ "instagram.com/".toList ++ z)
      = if (z.takeWhile isHandleChar).isEmpty then Option.none
        else some (z.takeWhile isHandleChar) := by
  simp only [schemeOpts, wwwOpts, List.mem_cons, List.not_mem_nil, or_false] at hpre hwww
  rcases hpre with rfl | rfl | rfl <;> rcases hwww with rfl | rfl <;>
    simp [matchProfile, dropScheme, dropWww, List.isPrefixOf]

theorem match_of_pattern {t run : List Char} (h : ProfilePattern t run) :
    matchProfile t = some run := by
  obtain ⟨pre, www, rest, hpre, hwww, hne, hrun, hrest, rfl⟩ := h
  obtain ⟨htake, -⟩ := takeWhile_run_append hrun hrest
  rw [List.append_assoc (pre ++ www ++ "instagram.com/".toList) run rest,
    matchProfile_shape hpre hwww (run ++ rest), htake]
  simp [List.isEmpty_iff, hne]

theorem dropScheme_https (s : List Char) :
    dropScheme ("https://".toList ++ s) = s := by
  simp [dropScheme, List.isPrefixOf]

theorem dropScheme_http (s : List Char) :
    dropScheme ("http://".toList ++ s) = s := by
  simp [dropScheme, List.isPrefixOf]

theorem dropWww_www (s : List Char) : dropWww ("www.".toList ++ s) = s := by
  simp [dropWww, List.isPrefixOf]

theorem dropScheme_decomp (t : List Char) :
    ∃ pre, pre ∈ schemeOpts ∧ t = pre ++ dropScheme t := by
  by_cases h1 : ("https://".toList).isPrefixOf t
  · obtain ⟨s, hs⟩ := List.isPrefixOf_iff_prefix.mp h1
    refine ⟨"https://".toList, by simp [schemeOpts], ?_⟩
    rw [← hs, dropScheme_https]
  · by_cases h2 : ("http://".toList).isPrefixOf t
    · obtain ⟨s, hs⟩ := List.isPrefixOf_iff_prefix.mp h2
      refine ⟨"http://".toList, by simp [schemeOpts], ?_⟩
      rw [← hs, dropScheme_http]
    · refine ⟨[], by simp [schemeOpts], ?_⟩
      rw [List.nil_append]
      unfold dropScheme
      rw [if_neg h1, if_neg h2]

theorem dropWww_decomp (t : List Char) :
    ∃ www, www ∈ wwwOpts ∧ t = www ++ dropWww t := by
  by_cases h : ("www.".toList).isPrefixOf t
  · obtain ⟨s, hs⟩ := List.isPrefixOf_iff_prefix.mp h
    refine ⟨"www.".toList, by simp [wwwOpts], ?_⟩
    rw [← hs, dropWww_www]
  · refine ⟨[], by simp [wwwOpts], ?_⟩
    rw [List.nil_append]
    unfold dropWww
    rw [if_neg h]

theorem dropWhile_head_false (p : Char → Bool) (l : List Char) :
    ∀ c ∈ (l.dropWhile p).take 1, p c = false := by
  induction l with
  | nil => simp
  | cons a l ih =>
    by_cases ha : p a
    · simpa [List.dropWhile, ha] using ih
    · intro c hc
      simp only [List.dropWhile, ha] at hc
      simp only [Bool.false_eq_true, if_false, List.take_succ_cons, List.take_zero,
        List.mem_cons, List.not_mem_nil, or_false] at hc
      rw [hc]
      exact Bool.eq_false_iff.mpr ha

theorem pattern_of_match {t run : List Char} (h : matchProfile t = some run) :
    ProfilePattern t run := by
  obtain ⟨pre, hpre, hteq⟩ := dropScheme_decomp t
  obtain ⟨www, hwww, hueq⟩ := dropWww_decomp (dropScheme t)
  unfold matchProfile at h
  by_cases hins : ("instagram.com/".toList).isPrefixOf (dropWww (dropScheme t))
  · obtain ⟨z, hz⟩ := List.isPrefixOf_iff_prefix.mp hins
    rw [if_pos hins] at h
    have hdrop : (dropWww (dropScheme t)).drop 14 = z := by rw [← hz]; rfl
    rw [hdrop] at h
    by_cases hemp : (z.takeWhile isHandleChar).isEmpty
    · rw [if_pos hemp] at h
      exact absurd h (by simp)
    · rw [if_neg hemp] at h
      obtain rfl : z.takeWhile isHandleChar = run := by simpa using h
      refine ⟨pre, www, z.dropWhile isHandleChar, hpre, hwww, ?_, ?_, ?_, ?_⟩
      · intro hrun
        rw [hrun] at hemp
        exact hemp rfl
      · exact fun c hc => List.mem_takeWhile_imp hc
      · exact dropWhile_head_false _ _
      · rw [List.append_assoc (pre ++ www ++ "instagram.com/".toList)
            (z.takeWhile isHandleChar) (z.dropWhile isHandleChar),
          List.takeWhile_append_dropWhile,
          List.append_assoc (pre ++ www) ("instagram.com/".toList) z, hz,
          List.append_assoc pre www (dropWww (dropScheme t)), ← hueq, ← hteq]
  · rw [if_neg hins] at h
    exact absurd h (by simp)

/-- C5 counterexample: `lstrip("@")` removes every leading at-sign, so the
input `@@name` yields `name`, not `@name` as the claim states. -/
theorem C5_counterexample :
    parse_username ("@@name".toList) = "name".toList
    ∧ "name".toList ≠ "@name".toList := ⟨rfl, by decide⟩

/-- C5 (amended): an input whose stripped form matches the profile URL
pattern yields exactly the captured handle run; every other input yields
the stripped form with all leading at-signs removed (so `@@name` becomes
`name`), verbatim even when empty, and the total function raises no
validation error. -/
theorem C5_parse_username (s : List Char) :
    (∀ run, ProfilePattern (pyStrip s) run → parse_username s = run)
    ∧ ((∀ run, ¬ ProfilePattern (pyStrip s) run) →
        parse_username s = lstripAt (pyStrip s)) := by
  constructor
  · intro run h
    unfold parse_username
    rw [match_of_pattern h]
  · intro hno
    unfold parse_username
    cases hm : matchProfile (pyStrip s) with
    | none => rfl
    | some run => exact absurd (pattern_of_match hm) (hno run)

theorem ProfilePattern_head {t run : List Char} (h : ProfilePattern t run) :
    t.head? = some 'h' ∨ t.head? = some 'w' ∨ t.head? = some 'i' := by
  obtain ⟨pre, www, rest, hpre, hwww, -, -, -, rfl⟩ := h
  simp only [schemeOpts, wwwOpts, List.mem_cons, List.not_mem_nil, or_false] at hpre hwww
  rcases hpre with rfl | rfl | rfl <;> rcases hwww with rfl | rfl <;>
    first
      | exact Or.inl rfl
      | exact Or.inr (Or.inl rfl)
      | exact Or.inr (Or.inr rfl)

/-- C5 witness: a bare profile path yields its handle, and `@@name` — which
matches no URL pattern — is stripped of every leading at-sign. -/
theorem C5_parse_username_witness :
    parse_username ("instagram.com/bob".toList) = "bob".toList
    ∧ parse_username ("@@name".toList) = lstripAt (pyStrip ("@@name".toList)) := by
  constructor
  · exact (C5_parse_username _).1 ("bob".toList)
      ⟨[], [], [], by decide, by decide, by decide, by decide, by decide, by decide⟩
  · exact (C5_parse_username _).2
      (fun run h => absurd (ProfilePattern_head h) (by decide))

/-- C10: the URL pattern is anchored only at the start of the (stripped)
input: any input decomposing into optional scheme, optional `www.`,
`instagram.com/` and a maximal non-empty handle run yields exactly that
run, with all trailing characters silently ignored; in particular the post
URL `https://www.instagram.com/alice/p/XYZ/` yields `alice`. -/
theorem C10_prefix_only_matching :
    (∀ s run, ProfilePattern (pyStrip s) run → parse_username s = run)
    ∧ parse_username ("https://www.instagram.com/alice/p/XYZ/".toList)
        = "alice".toList := by
  constructor
  · intro s run h
    unfold parse_username
    rw [match_of_pattern h]
  · rfl

/-- C10 witness: a surrounded-by-whitespace post URL still yields the
handle captured before the trailing path. -/
theorem C10_prefix_only_matching_witness :
    parse_username ("  https://www.instagram.com/alice/p/XYZ/ ".toList)
      = "alice".toList :=
  C10_prefix_only_matching.1 _ ("alice".toList)
    ⟨"https://".toList, "www.".toList, "/p/XYZ/".toList,
      by decide, by decide, by decide, by decide, by decide, by decide⟩

/-! ### The text entity extractor -/

theorem lexLt_cons_iff {x y : Char} {xs ys : List Char} :
    lexLt (x :: xs) (y :: ys) = true ↔ x < y ∨ (x = y ∧ lexLt xs ys = true) := by
  by_cases h1 : x < y
  · simp [lexLt, h1]
  · by_cases h2 : x = y
    · simp [lexLt, h1, h2]
    · simp [lexLt, h1, h2]

theorem lexLt_irrefl (a : List Char) : lexLt a a = false := by
  induction a with
  | nil => rfl
  | cons x xs ih =>
    rw [Bool.eq_false_iff]
    intro h
    rcases lexLt_cons_iff.mp h with h | ⟨-, h⟩
    · exact lt_irrefl x h
    · rw [ih] at h
      cases h

theorem lexLt_trans : ∀ {a b c : List Char},
    lexLt a b = true → lexLt b c = true → lexLt a c = true := by
  intro a
  induction a with
  | nil =>
    intro b c hab hbc
    cases b with
    | nil => cases hab
    | cons y ys =>
      cases c with
      | nil => cases hbc
      | cons z zs => rfl
  | cons x xs ih =>
    intro b c hab hbc
    cases b with
    | nil => cases hab
    | cons y ys =>
      cases c with
      | nil => cases hbc
      | cons z zs =>
        rcases lexLt_cons_iff.mp hab with h1 | ⟨rfl, h1⟩ <;>
          rcases lexLt_cons_iff.mp hbc with h2 | ⟨rfl, h2⟩
        · exact lexLt_cons_iff.mpr (Or.inl (lt_trans h1 h2))
        · exact lexLt_cons_iff.mpr (Or.inl h1)
        · exact lexLt_cons_iff.mpr (Or.inl h2)
        · exact lexLt_cons_iff.mpr (Or.inr ⟨rfl, ih h1 h2⟩)

theorem lexLt_trichotomy : ∀ a b : List Char,
    lexLt a b = true ∨ a = b ∨ lexLt b a = true := by
  intro a
  induction a with
  | nil =>
    intro b
    cases b with
    | nil => exact Or.inr (Or.inl rfl)
    | cons y ys => exact Or.inl rfl
  | cons x xs ih =>
    intro b
    cases b with
    | nil => exact Or.inr (Or.inr rfl)
    | cons y ys =>
      rcases lt_trichotomy x y with h | rfl | h
      · exact Or.inl (lexLt_cons_iff.mpr (Or.inl h))
      · rcases ih ys with h | rfl | h
        · exact Or.inl (lexLt_cons_iff.mpr (Or.inr ⟨rfl, h⟩))
        · exact Or.inr (Or.inl rfl)
        · exact Or.inr (Or.inr (lexLt_cons_iff.mpr (Or.inr ⟨rfl, h⟩)))
      · exact Or.inr (Or.inr (lexLt_cons_iff.mpr (Or.inl h)))

theorem lexLt_asymm {a b : List Char} (h : lexLt a b = true) : lexLt b a = false := by
  cases hba : lexLt b a with
  | false => rfl
  | true =>
    have := lexLt_trans h hba
    rw [lexLt_irrefl] at this
    cases this

theorem mem_insertDedup {y x : List Char} : ∀ {l : List (List Char)},
    y ∈ insertDedup x l ↔ y = x ∨ y ∈ l := by
  intro l
  induction l with
  | nil => simp [insertDedup]
  | cons z zs ih =>
    unfold insertDedup
    split_ifs with h1 h2
    · simp
    · subst h2
      simp only [List.mem_cons]
      tauto
    · simp only [List.mem_cons, ih]
      tauto

theorem sorted_insertDedup {l : List (List Char)}
    (h : l.Pairwise (fun a b => lexLt a b = true)) (x : List Char) :
    (insertDedup x l).Pairwise (fun a b => lexLt a b = true) := by
  induction l with
  | nil => simp [insertDedup]
  | cons z zs ih =>
    rcases List.pairwise_cons.mp h with ⟨hz, htail⟩
    unfold insertDedup
    split_ifs with h1 h2
    · refine List.pairwise_cons.mpr ⟨?_, h⟩
      intro b hb
      rcases List.mem_cons.mp hb with rfl | hb
      · exact h1
      · exact lexLt_trans h1 (hz b hb)
    · exact h
    · refine List.pairwise_cons.mpr ⟨?_, ih htail⟩
      intro b hb
      rcases mem_insertDedup.mp hb with rfl | hb
      · rcases lexLt_trichotomy b z with hlt | rfl | hlt
        · exact absurd hlt (by simp [h1])
        · exact absurd rfl h2
        · exact hlt
      · exact hz b hb

theorem mem_sortDedup {y : List Char} : ∀ {l : List (List Char)},
    y ∈ sortDedup l ↔ y ∈ l := by
  intro l
  induction l with
  | nil => simp [sortDedup]
  | cons x xs ih => simp [sortDedup, mem_insertDedup, ih]

theorem sorted_sortDedup : ∀ l : List (List Char),
    (sortDedup l).Pairwise (fun a b => lexLt a b = true) := by
  intro l
  induction l with
  | nil => exact List.Pairwise.nil
  | cons x xs ih => exact sorted_insertDedup ih x

/-- C8 counterexample: on `#Foo #foo #bar` the extractor returns the
three-element `["Foo", "bar", "foo"]` (capital letters sort before
lowercase), not the claimed two-element `["bar", "foo"]`. -/
theorem C8_counterexample :
    extract_hashtags (some ("#Foo #foo #bar".toList))
      = ["Foo".toList, "bar".toList, "foo".toList]
    ∧ ["Foo".toList, "bar".toList, "foo".toList] ≠ ["bar".toList, "foo".toList] := by
  constructor
  · decide
  · decide

/-- C8 (amended): `extract_hashtags` on `#Foo #foo #bar` returns exactly
the three-element sequence `["Foo", "bar", "foo"]` — case variants stay
distinct and uppercase sorts first in codepoint order. -/
theorem C8_hashtags_example :
    extract_hashtags (some ("#Foo #foo #bar".toList))
      = ["Foo".toList, "bar".toList, "foo".toList] := by decide

/-- C9: both extractors return the runs captured after their marker,
strictly sorted in ascending codepoint order (hence deduplicated, and with
no element lost or invented), and return the empty sequence on null and on
empty input. -/
theorem C9_extractors_sorted_dedup :
    (∀ s : List Char,
      ((extract_hashtags (some s)).Pairwise (fun a b => lexLt a b = true)
        ∧ (extract_hashtags (some s)).Nodup
        ∧ ∀ x, x ∈ extract_hashtags (some s) ↔ x ∈ findCaptures '#' isWordChar s)
      ∧ ((extract_mentions (some s)).Pairwise (fun a b => lexLt a b = true)
        ∧ (extract_mentions (some s)).Nodup
        ∧ ∀ x, x ∈ extract_mentions (some s) ↔ x ∈ findCaptures '@' isHandleChar s))
    ∧ extract_hashtags Option.none = [] ∧ extract_mentions Option.none = []
    ∧ extract_hashtags (some []) = [] ∧ extract_mentions (some []) = [] := by
  have hnodup : ∀ l : List (List Char),
      l.Pairwise (fun a b => lexLt a b = true) → l.Nodup := by
    intro l hl
    refine hl.imp ?_
    intro a b hab
    intro heq
    rw [heq, lexLt_irrefl] at hab
    cases hab
  refine ⟨fun s => ⟨⟨?_, ?_, fun x => ?_⟩, ⟨?_, ?_, fun x => ?_⟩⟩, rfl, rfl, rfl, rfl⟩
  · by_cases hs : s.isEmpty <;> simp [extract_hashtags, hs, sorted_sortDedup]
  · by_cases hs : s.isEmpty <;>
      simp [extract_hashtags, hs, hnodup _ (sorted_sortDedup _)]
  · by_cases hs : s.isEmpty
    · rw [List.isEmpty_iff.mp hs]
      simp [extract_hashtags, findCaptures, findCapturesAux]
    · simp [extract_hashtags, hs, mem_sortDedup]
  · by_cases hs : s.isEmpty <;> simp [extract_mentions, hs, sorted_sortDedup]
  · by_cases hs : s.isEmpty <;>
      simp [extract_mentions, hs, hnodup _ (sorted_sortDedup _)]
  · by_cases hs : s.isEmpty
    · rw [List.isEmpty_iff.mp hs]
      simp [extract_mentions, findCaptures, findCapturesAux]
    · simp [extract_mentions, hs, mem_sortDedup]

/-! ### The ranking assembler -/

theorem numLt_irrefl (a : Option ℚ) : numLt a a = false := by
  cases a with
  | none => rfl
  | some x => simp [numLt]

theorem numLt_trans {a b c : Option ℚ} (h1 : numLt a b = true) (h2 : numLt b c = true) :
    numLt a c = true := by
  cases a <;> cases b <;> cases c <;> simp [numLt] at * <;> linarith

theorem numLt_trichotomy (a b : Option ℚ) :
    numLt a b = true ∨ a = b ∨ numLt b a = true := by
  cases a with
  | none =>
    cases b with
    | none => exact Or.inr (Or.inl rfl)
    | some y => exact Or.inr (Or.inr rfl)
  | some x =>
    cases b with
    | none => exact Or.inl rfl
    | some y =>
      rcases lt_trichotomy y x with h | rfl | h
      · exact Or.inl (by simp [numLt, h])
      · exact Or.inr (Or.inl rfl)
      · exact Or.inr (Or.inr (by simp [numLt, h]))

theorem keyLt_irrefl (a : Option ℚ × Option ℚ) : keyLt a a = false := by
  simp [keyLt, numLt_irrefl]

theorem keyLt_trans {a b c : Option ℚ × Option ℚ}
    (h1 : keyLt a b = true) (h2 : keyLt b c = true) : keyLt a c = true := by
  simp only [keyLt, Bool.or_eq_true, Bool.and_eq_true, decide_eq_true_eq] at *
  rcases h1 with h1 | ⟨e1, h1⟩ <;> rcases h2 with h2 | ⟨e2, h2⟩
  · exact Or.inl (numLt_trans h1 h2)
  · exact Or.inl (e2 ▸ h1)
  · exact Or.inl (e1 ▸ h2)
  · exact Or.inr ⟨e1.trans e2, numLt_trans h1 h2⟩

theorem keyLt_trichotomy (a b : Option ℚ × Option ℚ) :
    keyLt a b = true ∨ a = b ∨ keyLt b a = true := by
  rcases numLt_trichotomy a.1 b.1 with h | e | h
  · exact Or.inl (by simp [keyLt, h])
  · rcases numLt_trichotomy a.2 b.2 with h | e2 | h
    · exact Or.inl (by simp [keyLt, e, h])
    · exact Or.inr (Or.inl (Prod.ext e e2))
    · exact Or.inr (Or.inr (by simp [keyLt, e.symm, h]))
  · exact Or.inr (Or.inr (by simp [keyLt, h]))

theorem keyLt_asymm {a b : Option ℚ × Option ℚ} (h : keyLt a b = true) :
    keyLt b a = false := by
  cases hba : keyLt b a with
  | false => rfl
  | true =>
    have := keyLt_trans h hba
    rw [keyLt_irrefl] at this
    cases this

theorem keyLt_false_trans {a b c : Option ℚ × Option ℚ}
    (h1 : keyLt b a = false) (h2 : keyLt c b = false) : keyLt c a = false := by
  cases hca : keyLt c a with
  | false => rfl
  | true =>
    rcases keyLt_trichotomy b c with h | rfl | h
    · have := keyLt_trans h hca
      rw [h1] at this
      cases this
    · rw [h1] at hca
      cases hca
    · rw [h2] at h
      cases h

theorem insertK_perm (key : Nat → Option ℚ × Option ℚ) (x : Nat) (l : List Nat) :
    (insertK key x l).Perm (x :: l) := by
  induction l with
  | nil => exact List.Perm.refl _
  | cons j js ih =>
    unfold insertK
    split_ifs
    · exact (List.Perm.cons j ih).trans (List.Perm.swap x j js)
    · exact List.Perm.refl _

theorem isortK_perm (key : Nat → Option ℚ × Option ℚ) (l : List Nat) :
    (isortK key l).Perm l := by
  induction l with
  | nil => exact List.Perm.refl _
  | cons x xs ih => exact (insertK_perm key x (isortK key xs)).trans (ih.cons x)

theorem mem_insertK {key : Nat → Option ℚ × Option ℚ} {x b : Nat} {l : List Nat} :
    b ∈ insertK key x l ↔ b = x ∨ b ∈ l := by
  rw [(insertK_perm key x l).mem_iff, List.mem_cons]

theorem insertK_sorted {key : Nat → Option ℚ × Option ℚ} {l : List Nat}
    (h : l.Pairwise (fun i j => keyLt (key j) (key i) = false)) (x : Nat) :
    (insertK key x l).Pairwise (fun i j => keyLt (key j) (key i) = false) := by
  induction l with
  | nil => simp [insertK]
  | cons j js ih =>
    rcases List.pairwise_cons.mp h with ⟨hj, htail⟩
    unfold insertK
    split_ifs with hlt
    · refine List.pairwise_cons.mpr ⟨?_, ih htail⟩
      intro b hb
      rcases mem_insertK.mp hb with rfl | hb
      · exact keyLt_asymm hlt
      · exact hj b hb
    · refine List.pairwise_cons.mpr ⟨?_, h⟩
      intro b hb
      rcases List.mem_cons.mp hb with rfl | hb
      · exact Bool.eq_false_iff.mpr hlt
      · exact keyLt_false_trans (Bool.eq_false_iff.mpr hlt) (hj b hb)

theorem isortK_sorted (key : Nat → Option ℚ × Option ℚ) (l : List Nat) :
    (isortK key l).Pairwise (fun i j => keyLt (key j) (key i) = false) := by
  induction l with
  | nil => exact List.Pairwise.nil
  | cons x xs ih => exact insertK_sorted ih x

theorem insertK_stable {key : Nat → Option ℚ × Option ℚ} {x : Nat} {l : List Nat}
    (hall : ∀ j ∈ l, x < j)
    (h : l.Pairwise (fun i j => key i = key j → i < j)) :
    (insertK key x l).Pairwise (fun i j => key i = key j → i < j) := by
  induction l with
  | nil => simp [insertK]
  | cons j js ih =>
    rcases List.pairwise_cons.mp h with ⟨hj, htail⟩
    unfold insertK
    split_ifs with hlt
    · refine List.pairwise_cons.mpr
        ⟨?_, ih (fun b hb => hall b (List.mem_cons_of_mem _ hb)) htail⟩
      intro b hb
      rcases mem_insertK.mp hb with rfl | hb
      · intro heq
        rw [heq, keyLt_irrefl] at hlt
        cases hlt
      · exact hj b hb
    · refine List.pairwise_cons.mpr ⟨?_, h⟩
      intro b hb
      exact fun _ => hall b hb

theorem isortK_stable (key : Nat → Option ℚ × Option ℚ) {l : List Nat}
    (h : l.Pairwise (· < ·)) :
    (isortK key l).Pairwise (fun i j => key i = key j → i < j) := by
  induction l with
  | nil => exact List.Pairwise.nil
  | cons x xs ih =>
    rcases List.pairwise_cons.mp h with ⟨hx, htail⟩
    exact insertK_stable
      (fun j hj => hx j ((isortK_perm key xs).mem_iff.mp hj)) (ih htail)

theorem range_map_getD (l : List PyVal) (d : PyVal) :
    (List.range l.length).map (fun i => l.getD i d) = l := by
  induction l with
  | nil => rfl
  | cons a t ih =>
    rw [List.length_cons, List.range_succ_eq_map, List.map_cons, List.map_map]
    exact congrArg (List.cons a) ih

/-- The spec's three-row ranking example: views [0.2, 0.5, 0.5] and
er [0.1, 0.2, 0.1]. -/
def dfRank : DF :=
  ⟨3, [ ("views_per_follower", [.rat 0.2, .rat 0.5, .rat 0.5])
      , ("er_per_follower", [.rat 0.1, .rat 0.2, .rat 0.1]) ]⟩

/-- C3: the ranked view is a permutation of the rows, sorted so that no
later row strictly precedes an earlier one under the descending
(views_per_follower, er_per_follower) key, exact key ties keep the
original fetch order, and when neither ranking column exists the ranked
view is the original table; the spec example with views [0.2, 0.5, 0.5]
and er [0.1, 0.2, 0.1] ranks as rows [2, 3, 1] (1-indexed). -/
theorem C3_ranking_sort :
    (∀ df : DF,
      (rankPerm df).Perm (List.range df.nrows)
      ∧ ((rankPerm df).map (rankKey df)).Pairwise (fun a b => keyLt b a = false)
      ∧ (rankPerm df).Pairwise (fun i j => rankKey df i = rankKey df j → i < j))
    ∧ (∀ df : DF, df.WF → df.get "views_per_follower" = Option.none →
        df.get "er_per_follower" = Option.none → rankDF df = df)
    ∧ rankPerm dfRank = [1, 2, 0] := by
  refine ⟨fun df => ⟨?_, ?_, ?_⟩, fun df hwf hv he => ?_, ?_⟩
  · unfold rankPerm
    split_ifs
    · exact isortK_perm _ _
    · exact List.Perm.refl _
  · rw [List.pairwise_map]
    unfold rankPerm
    split_ifs with hcols
    · exact isortK_sorted _ _
    · have hboth : df.get "views_per_follower" = Option.none
          ∧ df.get "er_per_follower" = Option.none := by
        rw [Bool.or_eq_true, not_or] at hcols
        exact ⟨Option.not_isSome_iff_eq_none.mp hcols.1,
          Option.not_isSome_iff_eq_none.mp hcols.2⟩
      have hkey : ∀ i, rankKey df i = (Option.none, Option.none) := by
        intro i
        simp [rankKey, hboth.1, hboth.2]
      refine List.Pairwise.imp ?_ (List.pairwise_lt_range _)
      intro i j _
      rw [hkey i, hkey j]
      exact keyLt_irrefl _
  · unfold rankPerm
    split_ifs
    · exact isortK_stable _ (List.pairwise_lt_range _)
    · exact (List.pairwise_lt_range _).imp (fun {i j} h => fun _ => h)
  · have hperm : rankPerm df = List.range df.nrows := by
      unfold rankPerm
      rw [if_neg (by simp [hv, he])]
    rcases df with ⟨n, cols⟩
    unfold rankDF
    simp only [hperm]
    have hcongr : ∀ p ∈ cols, ((List.range n).map
        (fun i => (Prod.snd p).getD i PyVal.nan)) = Prod.snd p := by
      intro p hp
      have hlen : (Prod.snd p).length = n := hwf p hp
      rw [← hlen, range_map_getD]
    have : cols.map (fun p => (p.1, (List.range n).map
        (fun i => p.2.getD i PyVal.nan))) = cols.map (fun p => p) :=
      List.map_congr_left (fun p hp => by rw [hcongr p hp])
    rw [this, List.map_id']
  · have k0 : rankKey dfRank 0 = (some 0.2, some 0.1) := rfl
    have k1 : rankKey dfRank 1 = (some 0.5, some 0.2) := rfl
    have k2 : rankKey dfRank 2 = (some 0.5, some 0.1) := rfl
    have h21 : keyLt (rankKey dfRank 2) (rankKey dfRank 1) = false := by
      rw [k1, k2]
      norm_num [keyLt, numLt]
    have h10 : keyLt (rankKey dfRank 1) (rankKey dfRank 0) = true := by
      rw [k1, k0]
      norm_num [keyLt, numLt]
    have h20 : keyLt (rankKey dfRank 2) (rankKey dfRank 0) = true := by
      rw [k2, k0]
      norm_num [keyLt, numLt]
    have hstep : rankPerm dfRank
        = insertK (rankKey dfRank) 0
            (insertK (rankKey dfRank) 1 (insertK (rankKey dfRank) 2 [])) := rfl
    rw [hstep]
    simp [insertK, h21, h10, h20]

/-- C3 witness: the empty table has neither ranking column, and its ranked
view is itself. -/
theorem C3_ranking_sort_witness : rankDF ⟨0, []⟩ = (⟨0, []⟩ : DF) :=
  C3_ranking_sort.2.1 ⟨0, []⟩ (fun p hp => absurd hp (List.not_mem_nil p)) rfl rfl

end IGParser
